import Mathlib

/-!
# Verification of npm-cloudflare-sync against its specification

A shallow embedding of the core logic of the `rvbcrs/npm-cloudflare-sync`
daemon (TypeScript), together with proofs that settle the frozen claims
about its specification.

Embedded components:
* `src/npm-monitor.ts` — host diffing (`getChangesSinceLastCheck`),
  fetch-failure accounting (`getProxyHosts`), the monitoring cycle.
* `src/cloudflare.ts` — `makeRequest` retry policy, `getRootDomain`,
  `hasWildcardARecord`, the DNS record operations and the mutations
  (POST/PUT/DELETE network requests) they issue.
* `src/public-ip.ts` — provider iteration, IPv4 validation, cache fallback.
* `src/index.ts` — the orchestrator callback `handleNPMChanges` and its
  helpers, modelled as the ordered trace of network mutations it issues.

Network I/O is modelled by explicit outcome parameters: each function that
performs requests takes the responses it would receive as an argument and
returns, where relevant, the ordered list of mutation requests it issues.
-/

namespace NpmCfSync

/-! ## Character-level string utilities

Models of the JavaScript string primitives used by the source
(`String.prototype.trim`, `String.prototype.split`, `JSON.stringify`),
implemented by structural recursion so that all definitions evaluate.
-/

/-- Whitespace for the model of `String.prototype.trim` (ASCII subset;
JS also trims other Unicode whitespace, which the daemon never sees in
host names). -/
def isJsWS (c : Char) : Bool :=
  c = ' ' || c = '\t' || c = '\n' || c = '\r'

/-- Model of `String.prototype.trim`. -/
def jsTrim (s : String) : String :=
  ⟨((s.data.dropWhile isJsWS).reverse.dropWhile isJsWS).reverse⟩

/-- Splitting a character list at every occurrence of `sep`, keeping empty
pieces — the semantics of JS `String.prototype.split` with a one-character
separator. -/
def splitChars (sep : Char) : List Char → List (List Char)
  | [] => [[]]
  | c :: cs =>
    if c = sep then [] :: splitChars sep cs
    else
      match splitChars sep cs with
      | [] => [[c]]
      | x :: xs => (c :: x) :: xs

/-- Model of JS `s.split(sep)` for a one-character separator. -/
def jsSplit (sep : Char) (s : String) : List String :=
  (splitChars sep s.data).map fun l => ⟨l⟩

/-- JSON string escaping of one character (`JSON.stringify` escapes the
quote and the backslash; control characters never occur in host data). -/
def escChar (c : Char) : List Char :=
  if c = '"' ∨ c = '\x5c' then ['\x5c', c] else [c]

/-- JSON string escaping of a character list. -/
def escList : List Char → List Char
  | [] => []
  | c :: cs => escChar c ++ escList cs

/-- The character sequence of `JSON.stringify` applied to a string:
a quote, the escaped body, a closing quote. -/
def jsonStrChars (s : List Char) : List Char :=
  '"' :: escList s ++ ['"']

/-- The character sequence of the elements part of `JSON.stringify` applied
to an array of strings: the serialized elements joined by `,`. -/
def jsonItems : List (List Char) → List Char
  | [] => []
  | [s] => jsonStrChars s
  | s :: ss => jsonStrChars s ++ ',' :: jsonItems ss

/-- Decoder for the body of a JSON string: reads escaped characters until
the unescaped closing quote, returning the decoded body and the remainder
after the quote.  Used only to prove that serialization is injective. -/
def decodeStrChars : List Char → List Char × List Char
  | [] => ([], [])
  | c :: cs =>
    if c = '\x5c' then
      match cs with
      | [] => ([], [])
      | d :: ds => (d :: (decodeStrChars ds).1, (decodeStrChars ds).2)
    else if c = '"' then ([], cs)
    else (c :: (decodeStrChars cs).1, (decodeStrChars cs).2)

/-- The remainder that follows a serialized element inside a serialized
array: nothing for the last element, a comma and the remaining elements
otherwise. -/
def jsonTail : List (List Char) → List Char
  | [] => []
  | ss@(_ :: _) => ',' :: jsonItems ss

/-! ## The monitor's data model (`src/types.ts`, `src/npm-monitor.ts`) -/

/-- The raw shape of NPM's `domain_names` field: it may arrive either as an
array of hostnames or as a single delimited string
(`domain_names: string | string[]` in `src/types.ts`). -/
inductive DomainNames
  | str (s : String)
  | list (ls : List String)
deriving DecidableEq, Repr

/-- `JSON.stringify` of a `domain_names` value, as the character sequence of
the serialized form (a JSON string for the string shape, a JSON array of
strings for the array shape). -/
def DomainNames.stringify : DomainNames → List Char
  | .str s => jsonStrChars s.data
  | .list ls => '[' :: jsonItems (ls.map String.data) ++ [']']

/-- One NPM proxy host (`NPMHost` in `src/types.ts`).  `modified_on` is
kept as the integer timestamp the diff compares
(`new Date(...).getTime()`); two snapshots with equal parsed times are
identified. -/
structure NPMHost where
  id : Nat
  domain_names : DomainNames
  forward_host : String
  forward_port : Nat
  modified_on : Int
deriving DecidableEq, Repr

/-- The tuple of fields the spec says the diff compares for a persisting id. -/
def fieldsTuple (h : NPMHost) : Int × String × Nat × DomainNames :=
  (h.modified_on, h.forward_host, h.forward_port, h.domain_names)

/-- The per-host change test of `getChangesSinceLastCheck`
(`src/npm-monitor.ts` lines 221–225): the timestamp, forward host, forward
port, or the `JSON.stringify` serialization of the raw `domain_names`
value differ. -/
def hostChanged (cur prev : NPMHost) : Bool :=
  cur.modified_on != prev.modified_on ||
  cur.forward_host != prev.forward_host ||
  cur.forward_port != prev.forward_port ||
  cur.domain_names.stringify != prev.domain_names.stringify

/-! ## The NPM monitor (`src/npm-monitor.ts`) -/

/-- The spec's normalization of a `domain_names` value (§3 of the spec):
a delimited string is split into a list and each entry is trimmed.  This
definition follows the spec's words; it is compared against the raw
serialization comparison the source performs. -/
def normalizeDomains : DomainNames → List String
  | .str s => (jsSplit ',' s).map jsTrim
  | .list ls => ls.map jsTrim

/-- The mutable state of `NPMMonitor` relevant to the claims. -/
structure MonitorState where
  lastKnownHosts : List NPMHost
  isInitialized : Bool
  consecutiveFailures : Nat
  isMonitoring : Bool
deriving DecidableEq, Repr

def maxConsecutiveFailures : Nat := 5

/-- The outcome of one full fetch attempt sequence against NPM: either the
GET eventually succeeded with a host list, or all retry attempts were
exhausted (the `for` loop of `getProxyHosts` fell through). -/
inductive FetchOutcome
  | success (hosts : List NPMHost)
  | failure
deriving DecidableEq, Repr

/-- `stopMonitoring` (`src/npm-monitor.ts` lines 265–273): clears the
interval and the running/initialized flags. -/
def stopMonitoring (st : MonitorState) : MonitorState :=
  { st with isMonitoring := false, isInitialized := false }

/-- `getProxyHosts` (`src/npm-monitor.ts` lines 110–184), at the level of
the claims: a successful fetch resets the consecutive-failure counter and
returns the hosts; exhausting all retries increments the counter, and then
either stops monitoring and throws (counter at the maximum) or returns the
empty list. -/
def getProxyHosts (st : MonitorState) (outcome : FetchOutcome) :
    Except String (List NPMHost) × MonitorState :=
  match outcome with
  | .success hosts => (.ok hosts, { st with consecutiveFailures := 0 })
  | .failure =>
    if maxConsecutiveFailures ≤ st.consecutiveFailures + 1 then
      (.error "NPM API is unreachable after multiple attempts. Monitoring stopped.",
        stopMonitoring { st with consecutiveFailures := st.consecutiveFailures + 1 })
    else
      (.ok [], { st with consecutiveFailures := st.consecutiveFailures + 1 })

/-- The result record of `getChangesSinceLastCheck`. -/
structure DiffResult where
  currentHosts : List NPMHost
  changedHosts : List NPMHost
  deletedHosts : List NPMHost
deriving DecidableEq, Repr

/-- The diff part of `getChangesSinceLastCheck`
(`src/npm-monitor.ts` lines 192–262), applied to a fetched current list:
on the first check the current list is adopted wholesale and reported as
changed with no deletions; afterwards, `changedHosts` filters the current
list by absence of the id in the baseline or a field change against the
first baseline entry with that id, and `deletedHosts` filters the baseline
by absence of the id in the current list.  The baseline is replaced with
the current list in both branches. -/
def diffChanges (st : MonitorState) (currentHosts : List NPMHost) :
    DiffResult × MonitorState :=
  if !st.isInitialized then
    (⟨currentHosts, currentHosts, []⟩,
      { st with lastKnownHosts := currentHosts, isInitialized := true })
  else
    let changedHosts := currentHosts.filter fun cur =>
      match st.lastKnownHosts.find? (fun h => h.id == cur.id) with
      | none => true
      | some prev => hostChanged cur prev
    let deletedHosts := st.lastKnownHosts.filter fun prev =>
      !currentHosts.any (fun h => h.id == prev.id)
    (⟨currentHosts, changedHosts, deletedHosts⟩,
      { st with lastKnownHosts := currentHosts })

/-- `getChangesSinceLastCheck` (`src/npm-monitor.ts` lines 186–263):
fetch, then diff; a fetch error propagates. -/
def getChangesSinceLastCheck (st : MonitorState) (outcome : FetchOutcome) :
    Except String DiffResult × MonitorState :=
  match getProxyHosts st outcome with
  | (.error e, st') => (.error e, st')
  | (.ok hosts, st') =>
    let r := diffChanges st' hosts
    (.ok r.1, r.2)

/-- One run of the `monitor` closure of `startMonitoring`
(`src/npm-monitor.ts` lines 291–318): on a successful check with a
non-empty changed or deleted set, the callback is invoked with
`(currentHosts, changedHosts, deletedHosts)`; errors are caught and
logged.  The returned option is the argument triple the callback receives,
if it is invoked. -/
def monitorCycle (st : MonitorState) (outcome : FetchOutcome) :
    Option (List NPMHost × List NPMHost × List NPMHost) × MonitorState :=
  match getChangesSinceLastCheck st outcome with
  | (.error _, st') => (none, st')
  | (.ok r, st') =>
    if !r.changedHosts.isEmpty || !r.deletedHosts.isEmpty then
      (some (r.currentHosts, r.changedHosts, r.deletedHosts), st')
    else
      (none, st')

/-- The filter predicate used for `changedHosts` in the non-bootstrap diff. -/
def changedPred (baseline : List NPMHost) (cur : NPMHost) : Bool :=
  match baseline.find? (fun h => h.id == cur.id) with
  | none => true
  | some prev => hostChanged cur prev

/-! ## The Cloudflare client (`src/cloudflare.ts`) -/

/-- Model of JS `String.prototype.endsWith`: the second string is a
character-suffix of the first. -/
def strEndsWith (s t : String) : Bool :=
  t.data.isSuffixOf s.data

/-- The loop body of `getRootDomain`: replace the best match whenever the
zone name is a suffix of the domain and strictly longer than the current
best. -/
def grdStep (domain bestMatch : String) (z : String × String) : String :=
  if strEndsWith domain z.1 = true ∧ bestMatch.length < z.1.length then z.1
  else bestMatch

/-- `getRootDomain` (`src/cloudflare.ts` lines 300–308): fold `grdStep`
over the registered zone entries, starting from the empty string (returned
unchanged when nothing matches). -/
def getRootDomain (zones : List (String × String)) (domain : String) : String :=
  zones.foldl (grdStep domain) ""

/-- A Cloudflare DNS record (`DNSRecord` in `src/types.ts`). -/
structure DNSRecord where
  id : String
  name : String
  type : String
  content : String
  proxied : Bool
deriving DecidableEq, Repr

/-- The payload of a record creation (`Omit<DNSRecord, 'id'>`). -/
structure DNSRecordData where
  name : String
  type : String
  content : String
  proxied : Bool
deriving DecidableEq, Repr

/-- The payload of a record update (`Partial<DNSRecord>`): every field
optional, `none` standing for a JS `undefined` field. -/
structure RecordPatch where
  id : Option String
  name : Option String
  type : Option String
  content : Option String
  proxied : Option Bool
deriving DecidableEq, Repr

/-- The Cloudflare-side environment a `handleNPMChanges` invocation runs
against: the zone map (name, zoneId) as rebuilt by `initZones`, and each
zone's DNS records as the API would return them.  Record fetches are
modelled as succeeding; a mutation issued during the same invocation is
not replayed into the environment. -/
structure CFEnv where
  zones : List (String × String)
  records : List (String × List DNSRecord)
deriving DecidableEq, Repr

/-- A mutating network request issued against the Cloudflare API:
`POST /zones/{id}/dns_records`, `PUT /zones/{id}/dns_records/{recordId}`
or `DELETE /zones/{id}/dns_records/{recordId}`. -/
inductive Mutation
  | post (zoneId : String) (data : DNSRecordData)
  | put (zoneId recordId : String) (data : RecordPatch)
  | del (zoneId recordId : String)
deriving DecidableEq, Repr

def Mutation.isDelete : Mutation → Bool
  | .del _ _ => true
  | _ => false

def Mutation.isCreate : Mutation → Bool
  | .post _ _ => true
  | _ => false

/-- The record name a create or update request targets (`none` for a
delete, which addresses a record by id only). -/
def mutTargetName : Mutation → Option String
  | .post _ data => some data.name
  | .put _ _ data => data.name
  | .del _ _ => none

/-- `getZoneIdForDomain` (`src/cloudflare.ts` lines 313–316): zone map
lookup through `getRootDomain`. -/
def getZoneIdForDomain (env : CFEnv) (domain : String) : Option String :=
  let rootDomain := getRootDomain env.zones domain
  (env.zones.find? fun z => z.1 == rootDomain).map Prod.snd

/-- The records of a zone id in the environment. -/
def zoneRecords (env : CFEnv) (zoneId : String) : List DNSRecord :=
  match env.records.find? fun p => p.1 == zoneId with
  | some p => p.2
  | none => []

/-- `getDNSRecords` (`src/cloudflare.ts` lines 321–347): empty list when
no zone matches, otherwise the zone's records (the fetch is modelled as
succeeding). -/
def getDNSRecords (env : CFEnv) (domain : String) : List DNSRecord :=
  match getZoneIdForDomain env domain with
  | none => []
  | some zoneId => zoneRecords env zoneId

/-- `hasWildcardARecord` (`src/cloudflare.ts` lines 353–371): the root
domain's zone has an A record literally named `*.<root>`. -/
def hasWildcardARecord (env : CFEnv) (domain : String) : Bool :=
  let rootDomain := getRootDomain env.zones domain
  (getDNSRecords env rootDomain).any fun record =>
    record.type == "A" && record.name == "*." ++ rootDomain

/-- `createDNSRecord` (`src/cloudflare.ts` lines 376–424): refuse (null,
no request) when no zone matches or when creating a CNAME into a zone
with a wildcard A record; otherwise issue the POST.  The successful
response is modelled as the record Cloudflare would return (its
server-assigned id is opaque and irrelevant to the claims). -/
def createDNSRecord (env : CFEnv) (domain : String) (data : DNSRecordData) :
    Option DNSRecord × List Mutation :=
  match getZoneIdForDomain env domain with
  | none => (none, [])
  | some zoneId =>
    if data.type = "CNAME" ∧ hasWildcardARecord env domain = true then
      (none, [])
    else
      (some ⟨"cf-assigned-id", data.name, data.type, data.content, data.proxied⟩,
        [.post zoneId data])

/-- Merging a `Partial<DNSRecord>` over an existing record — the shape of
the record a successful PUT returns. -/
def applyPatch (r : DNSRecord) (p : RecordPatch) : DNSRecord :=
  ⟨p.id.getD r.id, p.name.getD r.name, p.type.getD r.type,
    p.content.getD r.content, p.proxied.getD r.proxied⟩

/-- `updateDNSRecord` (`src/cloudflare.ts` lines 429–477): same wildcard
guard as create when the update's type is CNAME; otherwise issue the PUT.
The successful response is modelled as the patched stored record. -/
def updateDNSRecord (env : CFEnv) (domain recordId : String) (data : RecordPatch) :
    Option DNSRecord × List Mutation :=
  match getZoneIdForDomain env domain with
  | none => (none, [])
  | some zoneId =>
    if data.type = some "CNAME" ∧ hasWildcardARecord env domain = true then
      (none, [])
    else
      (((zoneRecords env zoneId).find? fun r => r.id == recordId).map
          (fun r => applyPatch r data),
        [.put zoneId recordId data])

/-- `deleteDNSRecord` (`src/cloudflare.ts` lines 482–515): false and no
request when no zone matches, otherwise issue the DELETE (modelled as
succeeding). -/
def deleteDNSRecord (env : CFEnv) (domain recordId : String) :
    Bool × List Mutation :=
  match getZoneIdForDomain env domain with
  | none => (false, [])
  | some zoneId => (true, [.del zoneId recordId])

/-- `updateRootDomainRecords` (`src/cloudflare.ts` lines 244–295), run at
the end of `initZones`: for every zone, update its root A record to the
current public IP when it differs, create it when absent, do nothing when
it matches. -/
def updateRootDomainRecordsMuts (env : CFEnv) (publicIP : String) : List Mutation :=
  env.zones.flatMap fun z =>
    match (getDNSRecords env z.1).find? (fun r => r.type == "A" && r.name == z.1) with
    | some aRecord =>
      if aRecord.content ≠ publicIP then
        (updateDNSRecord env z.1 aRecord.id
          ⟨some aRecord.id, some aRecord.name, some aRecord.type,
            some publicIP, some aRecord.proxied⟩).2
      else []
    | none => (createDNSRecord env z.1 ⟨z.1, "A", publicIP, true⟩).2

/-- The mutations issued by `initZones` (`src/cloudflare.ts` lines
228–239): rebuilding the zone map (represented by `env.zones`) issues no
mutations; the trailing root-record reconciliation pass does. -/
def initZonesMuts (env : CFEnv) (publicIP : String) : List Mutation :=
  updateRootDomainRecordsMuts env publicIP

/-! ## The reconciliation orchestrator (`src/index.ts`) -/

/-- The configuration bits the orchestrator reads. -/
structure OrchConfig where
  autoCreateRootRecords : Bool
deriving DecidableEq, Repr

/-- `ensureRootDomainRecord` (`src/index.ts` lines 11–69): false when no
zone matches; trivially true for a root domain; for a subdomain, true when
the root already has an A record, otherwise create one pointed at the
public IP if auto-creation is enabled (false on disabled auto-creation or
failed creation). -/
def ensureRootDomainRecord (env : CFEnv) (cfg : OrchConfig) (publicIP : String)
    (domain : String) : Bool × List Mutation :=
  if getRootDomain env.zones domain = "" then (false, [])
  else if domain = getRootDomain env.zones domain then (true, [])
  else
    match (getDNSRecords env (getRootDomain env.zones domain)).find?
        (fun r => r.type == "A" && r.name == getRootDomain env.zones domain) with
    | some _ => (true, [])
    | none =>
      if cfg.autoCreateRootRecords = false then (false, [])
      else
        match createDNSRecord env (getRootDomain env.zones domain)
            ⟨getRootDomain env.zones domain, "A", publicIP, true⟩ with
        | (none, muts) => (false, muts)
        | (some _, muts) => (true, muts)

/-- The changed/new-hosts loop body of `handleNPMChanges`
(`src/index.ts` lines 231–297) for one trimmed domain name: ensure the
root record for subdomains (skip the domain on failure), skip entirely
when a record with the domain's exact name already exists, otherwise
create a CNAME to the root (subdomain) or an A record (root domain,
auto-creation only). -/
def processChangedDomain (env : CFEnv) (cfg : OrchConfig) (publicIP : String)
    (domainName : String) : List Mutation :=
  if domainName ≠ getRootDomain env.zones domainName then
    match ensureRootDomainRecord env cfg publicIP domainName with
    | (false, muts) => muts
    | (true, muts) =>
      match (getDNSRecords env domainName).find? (fun r => r.name == domainName) with
      | some _ => muts
      | none =>
        muts ++ (createDNSRecord env domainName
          ⟨domainName, "CNAME", getRootDomain env.zones domainName, true⟩).2
  else
    match (getDNSRecords env domainName).find? (fun r => r.name == domainName) with
    | some _ => []
    | none =>
      if cfg.autoCreateRootRecords = true then
        (createDNSRecord env domainName ⟨domainName, "A", publicIP, true⟩).2
      else []

/-- The deleted-hosts loop body of `handleNPMChanges`
(`src/index.ts` lines 213–222) for one trimmed domain name: delete the
existing record with the domain's exact name, if any. -/
def processDeletedDomain (env : CFEnv) (domainName : String) : List Mutation :=
  match (getDNSRecords env domainName).find? (fun r => r.name == domainName) with
  | some record => (deleteDNSRecord env domainName record.id).2
  | none => []

/-- The domain list of a host as the orchestrator computes it
(`Array.isArray(host.domain_names) ? host.domain_names :
host.domain_names.split(",")`). -/
def hostDomainNames (h : NPMHost) : List String :=
  match h.domain_names with
  | .list ls => ls
  | .str s => jsSplit ',' s

/-- All mutations of the deleted-hosts loop, in issue order. -/
def deletedHostsMuts (env : CFEnv) (deletedHosts : List NPMHost) : List Mutation :=
  deletedHosts.flatMap fun h =>
    (hostDomainNames h).flatMap fun d => processDeletedDomain env (jsTrim d)

/-- All mutations of the changed/new-hosts loop, in issue order. -/
def changedHostsMuts (env : CFEnv) (cfg : OrchConfig) (publicIP : String)
    (changedHosts : List NPMHost) : List Mutation :=
  changedHosts.flatMap fun h =>
    (hostDomainNames h).flatMap fun d => processChangedDomain env cfg publicIP (jsTrim d)

/-- `handleNPMChanges` (`src/index.ts` lines 197–299) as the ordered trace
of mutation requests it issues: first the `initZones` reconciliation pass,
then the deleted-hosts loop, then the changed/new-hosts loop
(`currentHosts` is unused by the source body). -/
def handleNPMChanges (env : CFEnv) (cfg : OrchConfig) (publicIP : String)
    (changedHosts deletedHosts : List NPMHost) : List Mutation :=
  initZonesMuts env publicIP ++
    deletedHostsMuts env deletedHosts ++
    changedHostsMuts env cfg publicIP changedHosts

/-! ## The Cloudflare HTTP retry layer (`makeRequest`, `src/cloudflare.ts`
lines 64–198) -/

/-- What one attempt of `makeRequest` observes: a 2xx response whose JSON
payload carries `success`, a non-2xx response with its status and optional
parsed `Retry-After` header (seconds), or a transport-level error
(network failure / timeout). -/
inductive HttpResp
  | ok (success : Bool)
  | httpError (status : Nat) (retryAfter : Option Nat)
  | netError
deriving DecidableEq, Repr

/-- Outcome of a `makeRequest` call: how many attempts were issued and the
list of waits (milliseconds) inserted before each retry, in order. -/
inductive ReqOutcome
  | succeeded (attemptsUsed : Nat) (waits : List Nat)
  | failed (attemptsUsed : Nat) (waits : List Nat)
deriving DecidableEq, Repr

def ReqOutcome.attempts : ReqOutcome → Nat
  | .succeeded n _ => n
  | .failed n _ => n

def ReqOutcome.waits : ReqOutcome → List Nat
  | .succeeded _ w => w
  | .failed _ w => w

def cfMaxRetries : Nat := 3

def cfRetryDelay : Nat := 1000

/-- The exponential backoff of `delay` (`src/cloudflare.ts` lines 56–59):
`min(retryDelay * 2^attempt, 10000)` milliseconds. -/
def cfDelay (attempt : Nat) : Nat :=
  min (cfRetryDelay * 2 ^ attempt) 10000

/-- The retry loop of `makeRequest`, from a given attempt index with the
waits accumulated so far.  A 2xx `success=true` returns; `success=false`
raises a `CloudflareError` which the catch rethrows (no retry); 530
raises and is rethrown as fatal (no retry); 429 waits `Retry-After`
seconds (default: the base delay) and retries while budget remains; 403
raises (no retry); other ≥500 statuses back off and retry while budget
remains; all remaining non-2xx raise (no retry); transport errors back
off and retry while budget remains.  The fuel is `cfMaxRetries - attempt`
and is never exhausted before a terminal case. -/
def mrGo (resps : Nat → HttpResp) : Nat → Nat → List Nat → ReqOutcome
  | 0, attempt, waitsAcc => .failed attempt waitsAcc
  | fuel + 1, attempt, waitsAcc =>
    match resps attempt with
    | .ok true => .succeeded (attempt + 1) waitsAcc
    | .ok false => .failed (attempt + 1) waitsAcc
    | .httpError status retryAfter =>
      if status = 530 then .failed (attempt + 1) waitsAcc
      else if status = 429 then
        if attempt < cfMaxRetries - 1 then
          mrGo resps fuel (attempt + 1)
            (waitsAcc ++ [match retryAfter with
              | some n => n * 1000
              | none => cfRetryDelay])
        else .failed (attempt + 1) waitsAcc
      else if status = 403 then .failed (attempt + 1) waitsAcc
      else if 500 ≤ status ∧ attempt < cfMaxRetries - 1 then
        mrGo resps fuel (attempt + 1) (waitsAcc ++ [cfDelay attempt])
      else .failed (attempt + 1) waitsAcc
    | .netError =>
      if attempt < cfMaxRetries - 1 then
        mrGo resps fuel (attempt + 1) (waitsAcc ++ [cfDelay attempt])
      else .failed (attempt + 1) waitsAcc

/-- `makeRequest` (`src/cloudflare.ts` lines 64–198): the retry loop from
attempt 0 with the full 3-attempt budget. -/
def makeRequest (resps : Nat → HttpResp) : ReqOutcome :=
  mrGo resps cfMaxRetries 0 []

/-! ## The public IP resolver (`src/public-ip.ts`) -/

/-- The resolver's module-level cache: `cachedIP` and `lastCheck`. -/
structure IPCache where
  cachedIP : Option String
  lastCheck : Nat
deriving DecidableEq, Repr

/-- What one attempt against one IP provider observes: a 2xx response
with the extracted value, or any failure (HTTP error, transport error,
timeout, missing field). -/
inductive ProviderResp
  | ok (extracted : String)
  | fail
deriving DecidableEq, Repr

def ipCacheDuration : Nat := 300000

/-- The IPv4 validation of `getPublicIP` (`src/public-ip.ts` line 83), the
test of `/^\d{1,3}\.\d{1,3}\.\d{1,3}\.\d{1,3}$/`: four dot-separated
groups of one to three decimal digits (no range check on the octets). -/
def validIPv4 (s : String) : Bool :=
  let parts := jsSplit '.' s
  parts.length == 4 &&
    parts.all fun p => p.length != 0 && p.length ≤ 3 && p.data.all Char.isDigit

/-- Acceptance of one provider response (`src/public-ip.ts` lines 80–98):
the extracted value is a success exactly when it is truthy and passes the
IPv4 pattern; otherwise the attempt throws and counts as a provider
failure. -/
def acceptResp : ProviderResp → Option String
  | .ok s => if s ≠ "" ∧ validIPv4 s = true then some s else none
  | .fail => none

/-- The inner attempt loop for one provider: first accepted response wins. -/
def tryAttempts : List ProviderResp → Option String
  | [] => none
  | r :: rest =>
    match acceptResp r with
    | some ip => some ip
    | none => tryAttempts rest

/-- The outer provider loop (`src/public-ip.ts` lines 48–119): providers
in order, first provider with an accepted response wins. -/
def tryProviders : List (List ProviderResp) → Option String
  | [] => none
  | p :: ps =>
    match tryAttempts p with
    | some ip => some ip
    | none => tryProviders ps

def ipFailureMsg : String := "Failed to retrieve public IP from all services"

/-- `getPublicIP` (`src/public-ip.ts` lines 12–143): serve from the cache
while it is fresh; otherwise run the providers, updating the cache on
success; on total failure fall back to the cached value even if expired,
and raise only when the cache is empty. -/
def getPublicIP (cache : IPCache) (now : Nat)
    (results : List (List ProviderResp)) : Except String String × IPCache :=
  match cache.cachedIP with
  | some ip =>
    if now - cache.lastCheck < ipCacheDuration then (.ok ip, cache)
    else
      match tryProviders results with
      | some fresh => (.ok fresh, ⟨some fresh, now⟩)
      | none => (.ok ip, cache)
  | none =>
    match tryProviders results with
    | some fresh => (.ok fresh, ⟨some fresh, now⟩)
    | none => (.error ipFailureMsg, cache)

/-- The spec's description of provider selection, written from the spec's
words for comparison with the source's nested loops: flatten the
provider×attempt outcomes in order and take the first syntactically valid
extracted address. -/
def firstValidIP (results : List (List ProviderResp)) : Option String :=
  (results.flatten.filterMap acceptResp).head?

/-- Decimal value of a digit sequence. -/
def digitsVal (l : List Char) : Nat :=
  l.foldl (fun acc c => acc * 10 + (c.toNat - '0'.toNat)) 0

/-- The claim's notion of IPv4 dotted-quad syntax, written from the spec's
words for comparison with the code's pattern: four octets, each in the
range 0–255. -/
def specDottedQuad (s : String) : Bool :=
  (jsSplit '.' s).length == 4 &&
    (jsSplit '.' s).all fun p =>
      p.length != 0 && p.data.all Char.isDigit &&
        decide (digitsVal p.data ≤ 255)

/-! ## Theorems -/

theorem decodeStrChars_escList (s rest : List Char) :
    decodeStrChars (escList s ++ '"' :: rest) = (s, rest) := by
  induction s with
  | nil =>
    show decodeStrChars ('"' :: rest) = ([], rest)
    unfold decodeStrChars
    simp
  | cons c cs ih =>
    by_cases hesc : c = '"' ∨ c = '\x5c'
    · have h1 : escList (c :: cs) = '\x5c' :: c :: escList cs := by
        rcases hesc with h | h <;> subst h <;> simp [escList, escChar]
      rw [h1]
      show decodeStrChars ('\x5c' :: c :: (escList cs ++ '"' :: rest)) = (c :: cs, rest)
      unfold decodeStrChars
      simp [ih]
    · push_neg at hesc
      obtain ⟨hq, hb⟩ := hesc
      have h1 : escList (c :: cs) = c :: escList cs := by
        simp [escList, escChar, hq, hb]
      rw [h1]
      show decodeStrChars (c :: (escList cs ++ '"' :: rest)) = (c :: cs, rest)
      unfold decodeStrChars
      simp [hq, hb, ih]

/-- The key cancellation step: an escaped body followed by an unescaped
quote determines the body and the remainder. -/
theorem escSeg_inj {a b r1 r2 : List Char}
    (h : escList a ++ '"' :: r1 = escList b ++ '"' :: r2) : a = b ∧ r1 = r2 := by
  have h' := congrArg decodeStrChars h
  rw [decodeStrChars_escList, decodeStrChars_escList] at h'
  exact ⟨congrArg Prod.fst h', congrArg Prod.snd h'⟩

theorem jsonItems_cons (x : List Char) (xs : List (List Char)) :
    jsonItems (x :: xs) = '"' :: (escList x ++ '"' :: jsonTail xs) := by
  cases xs with
  | nil => simp [jsonItems, jsonStrChars, jsonTail]
  | cons w ws => simp [jsonItems, jsonStrChars, jsonTail]

theorem jsonItems_inj : ∀ l1 l2 : List (List Char),
    jsonItems l1 = jsonItems l2 → l1 = l2 := by
  intro l1
  induction l1 with
  | nil =>
    intro l2 h
    cases l2 with
    | nil => rfl
    | cons y ys =>
      exfalso
      rw [jsonItems_cons] at h
      exact List.noConfusion h.symm
  | cons x xs ih =>
    intro l2 h
    cases l2 with
    | nil =>
      exfalso
      rw [jsonItems_cons] at h
      exact List.noConfusion h
    | cons y ys =>
      rw [jsonItems_cons, jsonItems_cons] at h
      have htail : escList x ++ '"' :: jsonTail xs = escList y ++ '"' :: jsonTail ys := by
        injection h
      obtain ⟨hxy, hrest⟩ := escSeg_inj htail
      subst hxy
      cases xs with
      | nil =>
        cases ys with
        | nil => rfl
        | cons z zs =>
          exfalso
          simp only [jsonTail] at hrest
          exact List.noConfusion hrest.symm
      | cons w ws =>
        cases ys with
        | nil =>
          exfalso
          simp only [jsonTail] at hrest
          exact List.noConfusion hrest
        | cons z zs =>
          simp only [jsonTail] at hrest
          have : jsonItems (w :: ws) = jsonItems (z :: zs) := by
            injection hrest
          rw [ih _ this]

theorem stringify_inj : ∀ a b : DomainNames,
    a.stringify = b.stringify → a = b := by
  intro a b h
  cases a with
  | str s =>
    cases b with
    | str t =>
      simp only [DomainNames.stringify, jsonStrChars] at h
      have h2 : escList s.data ++ ['"'] = escList t.data ++ ['"'] := by injection h
      have h3 := (@escSeg_inj s.data t.data [] [] h2).1
      exact congrArg DomainNames.str (String.ext h3)
    | list ls =>
      exfalso
      simp only [DomainNames.stringify, jsonStrChars] at h
      have : '"' = '[' := by injection h
      exact absurd this (by decide)
  | list ls =>
    cases b with
    | str t =>
      exfalso
      simp only [DomainNames.stringify, jsonStrChars] at h
      have : '[' = '"' := by injection h
      exact absurd this (by decide)
    | list ms =>
      simp only [DomainNames.stringify] at h
      have h2 : jsonItems (ls.map String.data) ++ [']'] =
          jsonItems (ms.map String.data) ++ [']'] := by injection h
      have h3 := (List.append_inj' h2 rfl).1
      have h4 := jsonItems_inj _ _ h3
      have hinj : Function.Injective String.data := fun x y hxy => String.ext hxy
      exact congrArg DomainNames.list (List.map_injective_iff.mpr hinj h4)

theorem hostChanged_iff (cur prev : NPMHost) :
    hostChanged cur prev = true ↔ fieldsTuple cur ≠ fieldsTuple prev := by
  have hdn : (¬cur.domain_names.stringify = prev.domain_names.stringify) ↔
      ¬cur.domain_names = prev.domain_names :=
    not_congr ⟨fun h => stringify_inj _ _ h, fun h => congrArg DomainNames.stringify h⟩
  unfold hostChanged fieldsTuple
  simp only [Bool.or_eq_true, bne_iff_ne, ne_eq, Prod.mk.injEq, not_and_or, hdn]
  tauto

theorem changedPred_iff (baseline : List NPMHost)
    (hn : (baseline.map NPMHost.id).Nodup) (cur : NPMHost) :
    changedPred baseline cur = true ↔
      (∀ p ∈ baseline, p.id ≠ cur.id) ∨
        ∃ p ∈ baseline, p.id = cur.id ∧ fieldsTuple cur ≠ fieldsTuple p := by
  unfold changedPred
  cases hfind : baseline.find? (fun h => h.id == cur.id) with
  | none =>
    simp only [true_iff]
    left
    intro p hp
    have := List.find?_eq_none.mp hfind p hp
    simpa using this
  | some prev =>
    have hmem : prev ∈ baseline := List.mem_of_find?_eq_some hfind
    have hid : prev.id = cur.id := by
      have := List.find?_some hfind
      simpa using this
    rw [hostChanged_iff]
    constructor
    · intro hne
      exact Or.inr ⟨prev, hmem, hid, hne⟩
    · rintro (habs | ⟨p, hp, hpid, hne⟩)
      · exact absurd hid (habs prev hmem)
      · have : p = prev :=
          List.inj_on_of_nodup_map hn hp hmem (hpid.trans hid.symm)
        exact this ▸ hne

theorem diffChanges_not_init (L H2 : List NPMHost) (f : Nat) (m : Bool) :
    diffChanges ⟨L, false, f, m⟩ H2 = (⟨H2, H2, []⟩, ⟨H2, true, f, m⟩) := by
  simp [diffChanges]

theorem diffChanges_init (H1 H2 : List NPMHost) (f : Nat) (m : Bool) :
    diffChanges ⟨H1, true, f, m⟩ H2 =
      (⟨H2, H2.filter (changedPred H1),
          H1.filter fun prev => !H2.any (fun h => h.id == prev.id)⟩,
        ⟨H2, true, f, m⟩) := rfl

/-- **C1.** The monitor's diff satisfies the spec's partition rule: with
the `isInitialized` flag clear (the very first check after a (re)start),
every fetched host is reported as changed, no host is reported as deleted,
and the fetched list is adopted as the baseline; with the flag set and
baseline `H1`, a fetched host is in `changedHosts` exactly when its id is
absent from `H1` or its (modified_on, forward_host, forward_port,
domain_names) tuple differs from the `H1` entry with the same id,
`deletedHosts` are exactly the `H1` entries whose id is absent from the
fetched list, each id occurs at most once in each partition, and the
baseline is replaced by the fetched list. -/
theorem diff_partition_rule (H1 H2 L : List NPMHost)
    (hn1 : (H1.map NPMHost.id).Nodup) (hn2 : (H2.map NPMHost.id).Nodup)
    (f : Nat) (m : Bool) :
    (getChangesSinceLastCheck ⟨L, false, f, m⟩ (.success H2) =
        (.ok ⟨H2, H2, []⟩, ⟨H2, true, 0, m⟩)) ∧
    (∀ r st', getChangesSinceLastCheck ⟨H1, true, f, m⟩ (.success H2) = (.ok r, st') →
      r.currentHosts = H2 ∧
      (∀ h, h ∈ r.changedHosts ↔ h ∈ H2 ∧
        ((∀ p ∈ H1, p.id ≠ h.id) ∨
          ∃ p ∈ H1, p.id = h.id ∧ fieldsTuple h ≠ fieldsTuple p)) ∧
      (∀ h, h ∈ r.deletedHosts ↔ h ∈ H1 ∧ ∀ g ∈ H2, g.id ≠ h.id) ∧
      (r.changedHosts.map NPMHost.id).Nodup ∧
      (r.deletedHosts.map NPMHost.id).Nodup ∧
      st'.lastKnownHosts = H2) := by
  constructor
  · simp [getChangesSinceLastCheck, getProxyHosts, diffChanges_not_init]
  · intro r st' hrun
    rw [show getChangesSinceLastCheck ⟨H1, true, f, m⟩ (.success H2) =
        (let p := diffChanges ⟨H1, true, 0, m⟩ H2; (.ok p.1, p.2)) from rfl] at hrun
    rw [diffChanges_init] at hrun
    obtain ⟨hr, hst⟩ : (⟨H2, H2.filter (changedPred H1),
        H1.filter fun prev => !H2.any (fun h => h.id == prev.id)⟩ : DiffResult) = r ∧
        (⟨H2, true, 0, m⟩ : MonitorState) = st' := by
      constructor
      · exact congrArg (fun x => match x with | (Except.ok v, _) => v | _ => r) hrun
      · exact congrArg Prod.snd hrun
    subst hr
    subst hst
    refine ⟨rfl, ?_, ?_, ?_, ?_, rfl⟩
    · intro h
      simp only [List.mem_filter]
      exact and_congr_right fun _ => changedPred_iff H1 hn1 h
    · intro h
      simp only [List.mem_filter, Bool.not_eq_true']
      refine and_congr_right fun _ => ?_
      rw [← Bool.not_eq_true, List.any_eq_true]
      simp only [beq_iff_eq, not_exists, not_and]
    · exact (hn2.sublist (List.Sublist.map _ (List.filter_sublist _)))
    · exact (hn1.sublist (List.Sublist.map _ (List.filter_sublist _)))

theorem grdFold_eq_or_mem (domain : String) :
    ∀ (zs : List (String × String)) (acc : String),
      zs.foldl (grdStep domain) acc = acc ∨
        (zs.foldl (grdStep domain) acc ∈ zs.map Prod.fst ∧
          strEndsWith domain (zs.foldl (grdStep domain) acc) = true) := by
  intro zs
  induction zs with
  | nil => intro acc; left; rfl
  | cons z rest ih =>
    intro acc
    rw [List.foldl_cons]
    rcases ih (grdStep domain acc z) with h | ⟨hmem, hsuf⟩
    · rw [h]
      unfold grdStep
      split
      · rename_i hcond
        right
        exact ⟨List.mem_cons_self _ _, hcond.1⟩
      · left; rfl
    · right
      exact ⟨List.mem_cons_of_mem _ hmem, hsuf⟩

theorem grdFold_length_mono (domain : String) :
    ∀ (zs : List (String × String)) (acc : String),
      acc.length ≤ (zs.foldl (grdStep domain) acc).length := by
  intro zs
  induction zs with
  | nil => intro acc; exact le_refl _
  | cons z rest ih =>
    intro acc
    rw [List.foldl_cons]
    refine le_trans ?_ (ih (grdStep domain acc z))
    unfold grdStep
    split
    · rename_i hcond
      exact le_of_lt hcond.2
    · exact le_refl _

theorem grdFold_maximal (domain : String) :
    ∀ (zs : List (String × String)) (acc : String) (z : String),
      z ∈ zs.map Prod.fst → strEndsWith domain z = true →
      z.length ≤ (zs.foldl (grdStep domain) acc).length := by
  intro zs
  induction zs with
  | nil => intro acc z hz; exact absurd hz (List.not_mem_nil z)
  | cons w rest ih =>
    intro acc z hz hsuf
    rw [List.foldl_cons]
    rw [List.map_cons, List.mem_cons] at hz
    rcases hz with hz | hz
    · subst hz
      by_cases hcond : strEndsWith domain w.1 = true ∧ acc.length < w.1.length
      · have hstep : grdStep domain acc w = w.1 := by
          unfold grdStep
          exact if_pos hcond
        rw [hstep]
        exact grdFold_length_mono domain rest w.1
      · have hle : w.1.length ≤ acc.length := by
          by_contra hlt
          exact hcond ⟨hsuf, Nat.lt_of_not_le hlt⟩
        have hstep : grdStep domain acc w = acc := by
          unfold grdStep
          exact if_neg hcond
        rw [hstep]
        exact le_trans hle (grdFold_length_mono domain rest acc)
    · exact ih (grdStep domain acc w) z hz hsuf

theorem strEndsWith_iff (s t : String) :
    strEndsWith s t = true ↔ t.data <:+ s.data := by
  unfold strEndsWith
  exact List.isSuffixOf_iff_suffix

theorem strEndsWith_self (s : String) : strEndsWith s s = true :=
  (strEndsWith_iff s s).mpr (List.suffix_refl _)

theorem getRootDomain_eq_empty_or_mem (zones : List (String × String)) (x : String) :
    getRootDomain zones x = "" ∨
      (getRootDomain zones x ∈ zones.map Prod.fst ∧
        strEndsWith x (getRootDomain zones x) = true) :=
  grdFold_eq_or_mem x zones ""

theorem getRootDomain_maximal (zones : List (String × String)) (x : String) :
    ∀ z ∈ zones.map Prod.fst, strEndsWith x z = true →
      z.length ≤ (getRootDomain zones x).length :=
  fun z hz hsuf => grdFold_maximal x zones "" z hz hsuf

theorem string_length_zero (s : String) (h : s.length = 0) : s = "" := by
  have : s.data = [] := List.length_eq_zero.mp h
  exact String.ext this

theorem getRootDomain_empty (zones : List (String × String)) :
    getRootDomain zones "" = "" := by
  rcases getRootDomain_eq_empty_or_mem zones "" with h | ⟨_, hsuf⟩
  · exact h
  · have := ((strEndsWith_iff _ _).mp hsuf).length_le
    simp only [String.data] at this
    exact string_length_zero _ (Nat.le_zero.mp this)

theorem getRootDomain_idem (zones : List (String × String)) (x : String) :
    getRootDomain zones (getRootDomain zones x) = getRootDomain zones x := by
  rcases getRootDomain_eq_empty_or_mem zones x with hr | ⟨hmem, _⟩
  · rw [hr]
    exact getRootDomain_empty zones
  · set r := getRootDomain zones x with hrdef
    have hmax : r.length ≤ (getRootDomain zones r).length :=
      getRootDomain_maximal zones r r hmem (strEndsWith_self r)
    rcases getRootDomain_eq_empty_or_mem zones r with hr' | ⟨_, hsuf'⟩
    · rw [hr'] at hmax ⊢
      have : r.length = 0 := Nat.le_zero.mp hmax
      rw [string_length_zero r this]
    · have hsle : (getRootDomain zones r).data <:+ r.data := (strEndsWith_iff _ _).mp hsuf'
      have hlen : (getRootDomain zones r).data.length = r.data.length :=
        Nat.le_antisymm hsle.length_le hmax
      exact String.ext (hsle.eq_of_length hlen)

/-- **C4.** `getRootDomain` returns the longest registered zone name that
is a character suffix of the hostname (the empty string when none
matches), and it is idempotent; in particular with zones
`{"b.com", "a.b.com"}` the hostname `sub.a.b.com` maps to `a.b.com`. -/
theorem rootDomain_longest_suffix_idem (zones : List (String × String)) (x : String) :
    (getRootDomain zones x = "" ∨
      (getRootDomain zones x ∈ zones.map Prod.fst ∧
        strEndsWith x (getRootDomain zones x) = true)) ∧
    (∀ z ∈ zones.map Prod.fst, strEndsWith x z = true →
      z.length ≤ (getRootDomain zones x).length) ∧
    getRootDomain zones (getRootDomain zones x) = getRootDomain zones x ∧
    getRootDomain [("b.com", "zone1"), ("a.b.com", "zone2")] "sub.a.b.com" = "a.b.com" :=
  ⟨getRootDomain_eq_empty_or_mem zones x, getRootDomain_maximal zones x,
    getRootDomain_idem zones x, by decide⟩

/-- Witness for `rootDomain_longest_suffix_idem` at a concrete zone map
and hostname, discharging the suffix hypothesis of the maximality part. -/
theorem rootDomain_longest_suffix_idem_witness :
    "b.com" ∈ ([("b.com", "zone1"), ("a.b.com", "zone2")].map Prod.fst) ∧
    strEndsWith "sub.a.b.com" "b.com" = true ∧
    "b.com".length ≤
      (getRootDomain [("b.com", "zone1"), ("a.b.com", "zone2")] "sub.a.b.com").length :=
  ⟨by decide, by decide,
    (rootDomain_longest_suffix_idem [("b.com", "zone1"), ("a.b.com", "zone2")]
      "sub.a.b.com").2.1 "b.com" (by decide) (by decide)⟩

theorem hasWildcardARecord_of_mem (env : CFEnv) (domain : String)
    (hw : ∃ r ∈ getDNSRecords env (getRootDomain env.zones domain),
      r.type = "A" ∧ r.name = "*." ++ getRootDomain env.zones domain) :
    hasWildcardARecord env domain = true := by
  unfold hasWildcardARecord
  rw [List.any_eq_true]
  obtain ⟨r, hr, ht, hn⟩ := hw
  exact ⟨r, hr, by simp [ht, hn]⟩

/-- **C3.** For a hostname whose zone holds an A record literally named
`*.<zone>`, creating a CNAME and updating a record to a CNAME both return
null and issue no POST/PUT request. -/
theorem cname_wildcard_guard (env : CFEnv) (domain recordId : String)
    (data : DNSRecordData) (patch : RecordPatch)
    (hc : data.type = "CNAME") (hp : patch.type = some "CNAME")
    (hw : ∃ r ∈ getDNSRecords env (getRootDomain env.zones domain),
      r.type = "A" ∧ r.name = "*." ++ getRootDomain env.zones domain) :
    createDNSRecord env domain data = (none, []) ∧
    updateDNSRecord env domain recordId patch = (none, []) := by
  have hwild := hasWildcardARecord_of_mem env domain hw
  constructor
  · unfold createDNSRecord
    cases getZoneIdForDomain env domain with
    | none => rfl
    | some zoneId => simp [hc, hwild]
  · unfold updateDNSRecord
    cases getZoneIdForDomain env domain with
    | none => rfl
    | some zoneId => simp [hp, hwild]

/-- Witness for `cname_wildcard_guard`: a zone `example.com` with a
wildcard A record `*.example.com`, a CNAME creation and a CNAME update
for `sub.example.com`. -/
theorem cname_wildcard_guard_witness :
    ((⟨"sub.example.com", "CNAME", "example.com", true⟩ : DNSRecordData).type
        = "CNAME") ∧
    ((⟨none, none, some "CNAME", none, none⟩ : RecordPatch).type = some "CNAME") ∧
    (∃ r ∈ getDNSRecords
        ⟨[("example.com", "z1")],
          [("z1", [⟨"rid1", "*.example.com", "A", "1.2.3.4", false⟩])]⟩
        (getRootDomain [("example.com", "z1")] "sub.example.com"),
      r.type = "A" ∧
        r.name = "*." ++ getRootDomain [("example.com", "z1")] "sub.example.com") ∧
    (createDNSRecord
        ⟨[("example.com", "z1")],
          [("z1", [⟨"rid1", "*.example.com", "A", "1.2.3.4", false⟩])]⟩
        "sub.example.com" ⟨"sub.example.com", "CNAME", "example.com", true⟩
      = (none, []) ∧
    updateDNSRecord
        ⟨[("example.com", "z1")],
          [("z1", [⟨"rid1", "*.example.com", "A", "1.2.3.4", false⟩])]⟩
        "sub.example.com" "rid1" ⟨none, none, some "CNAME", none, none⟩
      = (none, [])) :=
  ⟨rfl, rfl, by decide,
    cname_wildcard_guard
      ⟨[("example.com", "z1")],
        [("z1", [⟨"rid1", "*.example.com", "A", "1.2.3.4", false⟩])]⟩
      "sub.example.com" "rid1"
      ⟨"sub.example.com", "CNAME", "example.com", true⟩
      ⟨none, none, some "CNAME", none, none⟩ rfl rfl (by decide)⟩

theorem createDNSRecord_muts_isCreate (env : CFEnv) (domain : String)
    (data : DNSRecordData) :
    ∀ mu ∈ (createDNSRecord env domain data).2, mu.isCreate = true := by
  intro mu hmu
  unfold createDNSRecord at hmu
  split at hmu
  · exact absurd hmu (List.not_mem_nil mu)
  · split at hmu
    · exact absurd hmu (List.not_mem_nil mu)
    · rcases List.mem_singleton.mp hmu with rfl
      rfl

theorem createDNSRecord_muts_name (env : CFEnv) (domain : String)
    (data : DNSRecordData) :
    ∀ mu ∈ (createDNSRecord env domain data).2, mutTargetName mu = some data.name := by
  intro mu hmu
  unfold createDNSRecord at hmu
  split at hmu
  · exact absurd hmu (List.not_mem_nil mu)
  · split at hmu
    · exact absurd hmu (List.not_mem_nil mu)
    · rcases List.mem_singleton.mp hmu with rfl
      rfl

theorem ensureRoot_muts_isCreate (env : CFEnv) (cfg : OrchConfig)
    (publicIP domain : String) :
    ∀ mu ∈ (ensureRootDomainRecord env cfg publicIP domain).2, mu.isCreate = true := by
  intro mu hmu
  unfold ensureRootDomainRecord at hmu
  split at hmu
  · exact absurd hmu (List.not_mem_nil mu)
  · split at hmu
    · exact absurd hmu (List.not_mem_nil mu)
    · split at hmu
      · exact absurd hmu (List.not_mem_nil mu)
      · split at hmu
        · exact absurd hmu (List.not_mem_nil mu)
        · split at hmu <;> rename_i heq
          · exact createDNSRecord_muts_isCreate env _ _ mu (by rw [heq]; exact hmu)
          · exact createDNSRecord_muts_isCreate env _ _ mu (by rw [heq]; exact hmu)

theorem ensureRoot_muts_name (env : CFEnv) (cfg : OrchConfig)
    (publicIP domain : String) :
    ∀ mu ∈ (ensureRootDomainRecord env cfg publicIP domain).2,
      mutTargetName mu = some (getRootDomain env.zones domain) := by
  intro mu hmu
  unfold ensureRootDomainRecord at hmu
  split at hmu
  · exact absurd hmu (List.not_mem_nil mu)
  · split at hmu
    · exact absurd hmu (List.not_mem_nil mu)
    · split at hmu
      · exact absurd hmu (List.not_mem_nil mu)
      · split at hmu
        · exact absurd hmu (List.not_mem_nil mu)
        · split at hmu <;> rename_i heq
          · exact createDNSRecord_muts_name env _ _ mu (by rw [heq]; exact hmu)
          · exact createDNSRecord_muts_name env _ _ mu (by rw [heq]; exact hmu)

theorem processChangedDomain_muts_isCreate (env : CFEnv) (cfg : OrchConfig)
    (publicIP domainName : String) :
    ∀ mu ∈ processChangedDomain env cfg publicIP domainName, mu.isCreate = true := by
  intro mu hmu
  unfold processChangedDomain at hmu
  split at hmu
  · split at hmu <;> rename_i heq
    · exact ensureRoot_muts_isCreate env cfg publicIP domainName mu (by rw [heq]; exact hmu)
    · split at hmu
      · exact ensureRoot_muts_isCreate env cfg publicIP domainName mu (by rw [heq]; exact hmu)
      · rcases List.mem_append.mp hmu with h | h
        · exact ensureRoot_muts_isCreate env cfg publicIP domainName mu (by rw [heq]; exact h)
        · exact createDNSRecord_muts_isCreate env _ _ mu h
  · split at hmu
    · exact absurd hmu (List.not_mem_nil mu)
    · split at hmu
      · exact createDNSRecord_muts_isCreate env _ _ mu hmu
      · exact absurd hmu (List.not_mem_nil mu)

theorem processDeletedDomain_muts_isDelete (env : CFEnv) (domainName : String) :
    ∀ mu ∈ processDeletedDomain env domainName, mu.isDelete = true := by
  intro mu hmu
  unfold processDeletedDomain at hmu
  split at hmu
  · unfold deleteDNSRecord at hmu
    split at hmu
    · exact absurd hmu (List.not_mem_nil mu)
    · rcases List.mem_singleton.mp hmu with rfl
      rfl
  · exact absurd hmu (List.not_mem_nil mu)

theorem deletedHostsMuts_isDelete (env : CFEnv) (deletedHosts : List NPMHost) :
    ∀ mu ∈ deletedHostsMuts env deletedHosts, mu.isDelete = true := by
  intro mu hmu
  unfold deletedHostsMuts at hmu
  rw [List.mem_flatMap] at hmu
  obtain ⟨h, _, hmu⟩ := hmu
  rw [List.mem_flatMap] at hmu
  obtain ⟨d, _, hmu⟩ := hmu
  exact processDeletedDomain_muts_isDelete env (jsTrim d) mu hmu

theorem changedHostsMuts_isCreate (env : CFEnv) (cfg : OrchConfig)
    (publicIP : String) (changedHosts : List NPMHost) :
    ∀ mu ∈ changedHostsMuts env cfg publicIP changedHosts, mu.isCreate = true := by
  intro mu hmu
  unfold changedHostsMuts at hmu
  rw [List.mem_flatMap] at hmu
  obtain ⟨h, _, hmu⟩ := hmu
  rw [List.mem_flatMap] at hmu
  obtain ⟨d, _, hmu⟩ := hmu
  exact processChangedDomain_muts_isCreate env cfg publicIP (jsTrim d) mu hmu

/-- **C9.** Within one `handleNPMChanges` invocation the issued request
trace is the `initZones` reconciliation pass, then the deleted-hosts
loop, then the changed/new-hosts loop; the deleted-hosts loop issues only
DELETE requests and the changed-hosts loop issues only POST (create)
requests, so every DNS-record deletion for the deleted set precedes every
create/update for the changed set in the trace. -/
theorem deletions_before_changes (env : CFEnv) (cfg : OrchConfig) (publicIP : String)
    (changedHosts deletedHosts : List NPMHost) :
    handleNPMChanges env cfg publicIP changedHosts deletedHosts =
      initZonesMuts env publicIP ++ deletedHostsMuts env deletedHosts ++
        changedHostsMuts env cfg publicIP changedHosts ∧
    (∀ mu ∈ deletedHostsMuts env deletedHosts, mu.isDelete = true) ∧
    (∀ mu ∈ changedHostsMuts env cfg publicIP changedHosts, mu.isCreate = true) :=
  ⟨rfl, deletedHostsMuts_isDelete env deletedHosts,
    changedHostsMuts_isCreate env cfg publicIP changedHosts⟩

/-- Witness for `deletions_before_changes`: a deleted host whose CNAME
record exists produces exactly its DELETE request. -/
theorem deletions_before_changes_witness :
    (Mutation.del "z1" "rid-sub") ∈
      deletedHostsMuts
        ⟨[("example.com", "z1")],
          [("z1", [⟨"rid-root", "example.com", "A", "1.2.3.4", true⟩,
            ⟨"rid-sub", "sub.example.com", "CNAME", "example.com", true⟩])]⟩
        [⟨7, .list ["sub.example.com"], "10.0.0.9", 8080, 5⟩] ∧
    (Mutation.del "z1" "rid-sub").isDelete = true :=
  ⟨by decide,
    (deletions_before_changes
      ⟨[("example.com", "z1")],
        [("z1", [⟨"rid-root", "example.com", "A", "1.2.3.4", true⟩,
          ⟨"rid-sub", "sub.example.com", "CNAME", "example.com", true⟩])]⟩
      ⟨true⟩ "1.2.3.4" []
      [⟨7, .list ["sub.example.com"], "10.0.0.9", 8080, 5⟩]).2.1
      (Mutation.del "z1" "rid-sub") (by decide)⟩

/-- **C10.** In the changed/new-hosts path, a domain name for which a
record with that exact name already exists in its zone receives no create
and no update: every request the path issues for that domain's host
targets a different record name (the root domain's, from the
ensure-root-record step). -/
theorem existing_record_not_touched (env : CFEnv) (cfg : OrchConfig)
    (publicIP domainName : String)
    (hex : ∃ r ∈ getDNSRecords env domainName, r.name = domainName) :
    ∀ mu ∈ processChangedDomain env cfg publicIP domainName,
      mutTargetName mu ≠ some domainName := by
  intro mu hmu
  have hfind : ¬((getDNSRecords env domainName).find?
      (fun r => r.name == domainName) = none) := by
    intro hnone
    obtain ⟨r, hr, hname⟩ := hex
    have := List.find?_eq_none.mp hnone r hr
    simp [hname] at this
  unfold processChangedDomain at hmu
  split at hmu
  · rename_i hroot
    have hname : ∀ m ∈ (ensureRootDomainRecord env cfg publicIP domainName).2,
        mutTargetName m = some (getRootDomain env.zones domainName) :=
      ensureRoot_muts_name env cfg publicIP domainName
    have hne : some (getRootDomain env.zones domainName) ≠ some domainName :=
      fun hc => hroot (Option.some_injective _ hc).symm
    split at hmu <;> rename_i heq
    · rw [hname mu (by rw [heq]; exact hmu)]
      exact hne
    · split at hmu
      · rw [hname mu (by rw [heq]; exact hmu)]
        exact hne
      · rename_i hnone
        exact absurd hnone hfind
  · split at hmu
    · exact absurd hmu (List.not_mem_nil mu)
    · rename_i hnone
      exact absurd hnone hfind

/-- Witness for `existing_record_not_touched`: `sub.example.com` already
has a record; the only request issued is the auto-created root A record
for `example.com`, not one for `sub.example.com`. -/
theorem existing_record_not_touched_witness :
    (∃ r ∈ getDNSRecords
        ⟨[("example.com", "z1")],
          [("z1", [⟨"rid-sub", "sub.example.com", "CNAME", "example.com", true⟩])]⟩
        "sub.example.com", r.name = "sub.example.com") ∧
    processChangedDomain
        ⟨[("example.com", "z1")],
          [("z1", [⟨"rid-sub", "sub.example.com", "CNAME", "example.com", true⟩])]⟩
        ⟨true⟩ "1.2.3.4" "sub.example.com" =
      [Mutation.post "z1" ⟨"example.com", "A", "1.2.3.4", true⟩] ∧
    (∀ mu ∈ processChangedDomain
        ⟨[("example.com", "z1")],
          [("z1", [⟨"rid-sub", "sub.example.com", "CNAME", "example.com", true⟩])]⟩
        ⟨true⟩ "1.2.3.4" "sub.example.com",
      mutTargetName mu ≠ some "sub.example.com") :=
  ⟨by decide, by decide,
    existing_record_not_touched
      ⟨[("example.com", "z1")],
        [("z1", [⟨"rid-sub", "sub.example.com", "CNAME", "example.com", true⟩])]⟩
      ⟨true⟩ "1.2.3.4" "sub.example.com" (by decide)⟩

/-- **C2.** When the proxy-host fetch exhausts its retries while the
consecutive-failure counter stays below the maximum, `getProxyHosts`
returns an empty list instead of raising; the monitoring cycle then
reports every previously-known host as deleted (and none as changed),
invokes the callback with that deleted set, and replaces the baseline
with the empty list; the callback's work for these arguments is the
deletion pass (only DELETE requests besides the `initZones`
reconciliation). -/
theorem transient_fetch_failure_flushes_state (env : CFEnv) (cfg : OrchConfig)
    (publicIP : String) (H1 : List NPMHost) (f : Nat)
    (hne : H1 ≠ []) (hf : f + 1 < maxConsecutiveFailures) :
    getProxyHosts ⟨H1, true, f, true⟩ .failure = (.ok [], ⟨H1, true, f + 1, true⟩) ∧
    monitorCycle ⟨H1, true, f, true⟩ .failure =
      (some ([], [], H1), ⟨[], true, f + 1, true⟩) ∧
    handleNPMChanges env cfg publicIP [] H1 =
      initZonesMuts env publicIP ++ deletedHostsMuts env H1 ∧
    (∀ mu ∈ deletedHostsMuts env H1, mu.isDelete = true) := by
  have hlt : ¬(maxConsecutiveFailures ≤ f + 1) := Nat.not_le.mpr hf
  have hgp : getProxyHosts ⟨H1, true, f, true⟩ .failure =
      (.ok [], ⟨H1, true, f + 1, true⟩) := by
    simp [getProxyHosts, hlt]
  have hH1 : H1.isEmpty = false := by
    cases H1 with
    | nil => exact absurd rfl hne
    | cons a l => rfl
  have hfilter : (H1.filter fun prev =>
      !([] : List NPMHost).any (fun h => h.id == prev.id)) = H1 := by
    simp
  refine ⟨hgp, ?_, ?_, deletedHostsMuts_isDelete env H1⟩
  · unfold monitorCycle getChangesSinceLastCheck
    rw [hgp]
    simp only [diffChanges_init]
    rw [hfilter]
    simp [hH1]
  · unfold handleNPMChanges changedHostsMuts
    simp

/-- Witness for `transient_fetch_failure_flushes_state`: one known host,
failure counter 0; the cycle flushes it into the deleted set. -/
theorem transient_fetch_failure_flushes_state_witness :
    (([⟨7, .list ["sub.example.com"], "10.0.0.9", 8080, 5⟩] : List NPMHost) ≠ []) ∧
    (0 + 1 < maxConsecutiveFailures) ∧
    monitorCycle ⟨[⟨7, .list ["sub.example.com"], "10.0.0.9", 8080, 5⟩], true, 0, true⟩
        .failure =
      (some ([], [], [⟨7, .list ["sub.example.com"], "10.0.0.9", 8080, 5⟩]),
        ⟨[], true, 0 + 1, true⟩) :=
  ⟨by decide, by decide,
    (transient_fetch_failure_flushes_state
      ⟨[("example.com", "z1")], []⟩ ⟨true⟩ "1.2.3.4"
      [⟨7, .list ["sub.example.com"], "10.0.0.9", 8080, 5⟩] 0
      (by decide) (by decide)).2.1⟩

/-- Witness for `diff_partition_rule`: concrete host lists with distinct
ids; the bootstrap equation at those lists. -/
theorem diff_partition_rule_witness :
    (([⟨1, DomainNames.list ["app.example.com"], "10.0.0.5", 80, 100⟩,
        ⟨2, DomainNames.str "b.example.com", "10.0.0.6", 81, 200⟩] :
      List NPMHost).map NPMHost.id).Nodup ∧
    (([⟨1, DomainNames.list ["app.example.com"], "10.0.0.5", 80, 100⟩,
        ⟨2, DomainNames.str "b.example.com", "10.0.0.6", 82, 200⟩,
        ⟨3, DomainNames.list ["c.example.com"], "10.0.0.7", 88, 300⟩] :
      List NPMHost).map NPMHost.id).Nodup ∧
    getChangesSinceLastCheck ⟨[], false, 0, true⟩
        (.success [⟨1, DomainNames.list ["app.example.com"], "10.0.0.5", 80, 100⟩,
          ⟨2, DomainNames.str "b.example.com", "10.0.0.6", 82, 200⟩,
          ⟨3, DomainNames.list ["c.example.com"], "10.0.0.7", 88, 300⟩]) =
      (.ok ⟨[⟨1, DomainNames.list ["app.example.com"], "10.0.0.5", 80, 100⟩,
          ⟨2, DomainNames.str "b.example.com", "10.0.0.6", 82, 200⟩,
          ⟨3, DomainNames.list ["c.example.com"], "10.0.0.7", 88, 300⟩],
        [⟨1, DomainNames.list ["app.example.com"], "10.0.0.5", 80, 100⟩,
          ⟨2, DomainNames.str "b.example.com", "10.0.0.6", 82, 200⟩,
          ⟨3, DomainNames.list ["c.example.com"], "10.0.0.7", 88, 300⟩], []⟩,
        ⟨[⟨1, DomainNames.list ["app.example.com"], "10.0.0.5", 80, 100⟩,
          ⟨2, DomainNames.str "b.example.com", "10.0.0.6", 82, 200⟩,
          ⟨3, DomainNames.list ["c.example.com"], "10.0.0.7", 88, 300⟩], true, 0, true⟩) :=
  ⟨by decide, by decide,
    (diff_partition_rule
      [⟨1, DomainNames.list ["app.example.com"], "10.0.0.5", 80, 100⟩,
        ⟨2, DomainNames.str "b.example.com", "10.0.0.6", 81, 200⟩]
      [⟨1, DomainNames.list ["app.example.com"], "10.0.0.5", 80, 100⟩,
        ⟨2, DomainNames.str "b.example.com", "10.0.0.6", 82, 200⟩,
        ⟨3, DomainNames.list ["c.example.com"], "10.0.0.7", 88, 300⟩] []
      (by decide) (by decide) 0 true).1⟩

theorem mrGo_ok_eq (resps : Nat → HttpResp) (fuel attempt : Nat) (ws : List Nat)
    (b : Bool) (h : resps attempt = .ok b) :
    mrGo resps (fuel + 1) attempt ws =
      if b then .succeeded (attempt + 1) ws else .failed (attempt + 1) ws := by
  conv_lhs => rw [mrGo]
  rw [h]
  cases b <;> rfl

theorem mrGo_httpError_eq (resps : Nat → HttpResp) (fuel attempt : Nat)
    (ws : List Nat) (status : Nat) (ra : Option Nat)
    (h : resps attempt = .httpError status ra) :
    mrGo resps (fuel + 1) attempt ws =
      if status = 530 then .failed (attempt + 1) ws
      else if status = 429 then
        if attempt < cfMaxRetries - 1 then
          mrGo resps fuel (attempt + 1)
            (ws ++ [match ra with | some n => n * 1000 | none => cfRetryDelay])
        else .failed (attempt + 1) ws
      else if status = 403 then .failed (attempt + 1) ws
      else if 500 ≤ status ∧ attempt < cfMaxRetries - 1 then
        mrGo resps fuel (attempt + 1) (ws ++ [cfDelay attempt])
      else .failed (attempt + 1) ws := by
  conv_lhs => rw [mrGo]
  rw [h]

theorem mrGo_netError_eq (resps : Nat → HttpResp) (fuel attempt : Nat)
    (ws : List Nat) (h : resps attempt = .netError) :
    mrGo resps (fuel + 1) attempt ws =
      if attempt < cfMaxRetries - 1 then
        mrGo resps fuel (attempt + 1) (ws ++ [cfDelay attempt])
      else .failed (attempt + 1) ws := by
  conv_lhs => rw [mrGo]
  rw [h]

theorem mrGo_waits_mono (resps : Nat → HttpResp) :
    ∀ (fuel attempt : Nat) (ws : List Nat),
      ∃ t, (mrGo resps fuel attempt ws).waits = ws ++ t := by
  intro fuel
  induction fuel with
  | zero => intro attempt ws; exact ⟨[], by simp [mrGo, ReqOutcome.waits]⟩
  | succ fuel ih =>
    intro attempt ws
    cases hresp : resps attempt with
    | ok success =>
      rw [mrGo_ok_eq resps fuel attempt ws success hresp]
      cases success <;> exact ⟨[], by simp [ReqOutcome.waits]⟩
    | httpError status retryAfter =>
      rw [mrGo_httpError_eq resps fuel attempt ws status retryAfter hresp]
      by_cases h530 : status = 530
      · rw [if_pos h530]; exact ⟨[], by simp [ReqOutcome.waits]⟩
      · rw [if_neg h530]
        by_cases h429 : status = 429
        · rw [if_pos h429]
          by_cases hbudget : attempt < cfMaxRetries - 1
          · rw [if_pos hbudget]
            cases retryAfter with
            | some n =>
              obtain ⟨t, ht⟩ := ih (attempt + 1) (ws ++ [n * 1000])
              exact ⟨n * 1000 :: t, by rw [ht]; simp⟩
            | none =>
              obtain ⟨t, ht⟩ := ih (attempt + 1) (ws ++ [cfRetryDelay])
              exact ⟨cfRetryDelay :: t, by rw [ht]; simp⟩
          · rw [if_neg hbudget]; exact ⟨[], by simp [ReqOutcome.waits]⟩
        · rw [if_neg h429]
          by_cases h403 : status = 403
          · rw [if_pos h403]; exact ⟨[], by simp [ReqOutcome.waits]⟩
          · rw [if_neg h403]
            by_cases h5xx : 500 ≤ status ∧ attempt < cfMaxRetries - 1
            · rw [if_pos h5xx]
              obtain ⟨t, ht⟩ := ih (attempt + 1) (ws ++ [cfDelay attempt])
              exact ⟨cfDelay attempt :: t, by rw [ht, List.append_assoc]; rfl⟩
            · rw [if_neg h5xx]; exact ⟨[], by simp [ReqOutcome.waits]⟩
    | netError =>
      rw [mrGo_netError_eq resps fuel attempt ws hresp]
      by_cases hbudget : attempt < cfMaxRetries - 1
      · rw [if_pos hbudget]
        obtain ⟨t, ht⟩ := ih (attempt + 1) (ws ++ [cfDelay attempt])
        exact ⟨cfDelay attempt :: t, by rw [ht, List.append_assoc]; rfl⟩
      · rw [if_neg hbudget]; exact ⟨[], by simp [ReqOutcome.waits]⟩

theorem mrGo_attempts_le (resps : Nat → HttpResp) :
    ∀ (fuel attempt : Nat) (ws : List Nat),
      (mrGo resps fuel attempt ws).attempts ≤ attempt + fuel := by
  intro fuel
  induction fuel with
  | zero => intro attempt ws; simp [mrGo, ReqOutcome.attempts]
  | succ fuel ih =>
    intro attempt ws
    cases hresp : resps attempt with
    | ok success =>
      rw [mrGo_ok_eq resps fuel attempt ws success hresp]
      cases success <;> simp only [if_true, if_false, ReqOutcome.attempts,
        Bool.false_eq_true, ite_false, ite_true] <;> omega
    | httpError status retryAfter =>
      rw [mrGo_httpError_eq resps fuel attempt ws status retryAfter hresp]
      by_cases h530 : status = 530
      · rw [if_pos h530]; simp only [ReqOutcome.attempts]; omega
      · rw [if_neg h530]
        by_cases h429 : status = 429
        · rw [if_pos h429]
          by_cases hbudget : attempt < cfMaxRetries - 1
          · rw [if_pos hbudget]
            exact le_trans (ih (attempt + 1) _) (by omega)
          · rw [if_neg hbudget]; simp only [ReqOutcome.attempts]; omega
        · rw [if_neg h429]
          by_cases h403 : status = 403
          · rw [if_pos h403]; simp only [ReqOutcome.attempts]; omega
          · rw [if_neg h403]
            by_cases h5xx : 500 ≤ status ∧ attempt < cfMaxRetries - 1
            · rw [if_pos h5xx]
              exact le_trans (ih (attempt + 1) _) (by omega)
            · rw [if_neg h5xx]; simp only [ReqOutcome.attempts]; omega
    | netError =>
      rw [mrGo_netError_eq resps fuel attempt ws hresp]
      by_cases hbudget : attempt < cfMaxRetries - 1
      · rw [if_pos hbudget]
        exact le_trans (ih (attempt + 1) _) (by omega)
      · rw [if_neg hbudget]; simp only [ReqOutcome.attempts]; omega

theorem mrGo_attempts_ge (resps : Nat → HttpResp) :
    ∀ (fuel attempt : Nat) (ws : List Nat), 0 < fuel →
      attempt + 1 ≤ (mrGo resps fuel attempt ws).attempts := by
  intro fuel
  induction fuel with
  | zero => intro attempt ws h; exact absurd h (lt_irrefl 0)
  | succ fuel ih =>
    intro attempt ws _
    have hrec : ∀ ws', attempt + 1 ≤ (mrGo resps fuel (attempt + 1) ws').attempts := by
      intro ws'
      cases fuel with
      | zero => simp [mrGo, ReqOutcome.attempts]
      | succ fuel' =>
        exact le_trans (by omega) (ih (attempt + 1) ws' (Nat.succ_pos _))
    cases hresp : resps attempt with
    | ok success =>
      rw [mrGo_ok_eq resps fuel attempt ws success hresp]
      cases success <;> simp [ReqOutcome.attempts]
    | httpError status retryAfter =>
      rw [mrGo_httpError_eq resps fuel attempt ws status retryAfter hresp]
      by_cases h530 : status = 530
      · rw [if_pos h530]; simp [ReqOutcome.attempts]
      · rw [if_neg h530]
        by_cases h429 : status = 429
        · rw [if_pos h429]
          by_cases hbudget : attempt < cfMaxRetries - 1
          · rw [if_pos hbudget]; exact hrec _
          · rw [if_neg hbudget]; simp [ReqOutcome.attempts]
        · rw [if_neg h429]
          by_cases h403 : status = 403
          · rw [if_pos h403]; simp [ReqOutcome.attempts]
          · rw [if_neg h403]
            by_cases h5xx : 500 ≤ status ∧ attempt < cfMaxRetries - 1
            · rw [if_pos h5xx]; exact hrec _
            · rw [if_neg h5xx]; simp [ReqOutcome.attempts]
    | netError =>
      rw [mrGo_netError_eq resps fuel attempt ws hresp]
      by_cases hbudget : attempt < cfMaxRetries - 1
      · rw [if_pos hbudget]; exact hrec _
      · rw [if_neg hbudget]; simp [ReqOutcome.attempts]

theorem mrGo_530 (resps : Nat → HttpResp) (ra : Option Nat) :
    ∀ (fuel attempt : Nat) (ws : List Nat), resps attempt = .httpError 530 ra →
      mrGo resps (fuel + 1) attempt ws = .failed (attempt + 1) ws := by
  intro fuel attempt ws h
  rw [mrGo_httpError_eq resps fuel attempt ws 530 ra h]
  simp

/-- **C5.** In `makeRequest`, a 530 response fails the call at once — one
attempt used, no waits — regardless of the remaining budget (stated for
any loop position); a 429 response on the first attempt with
`Retry-After: n` makes the very next attempt wait `n * 1000` milliseconds
first (the head of the wait trace) while a second attempt is still
issued, and every call uses at most the 3-attempt budget. -/
theorem retry_530_fatal_429_retry_after (resps : Nat → HttpResp)
    (ra : Option Nat) (n : Nat) :
    (resps 0 = .httpError 530 ra → makeRequest resps = .failed 1 []) ∧
    (∀ fuel attempt ws, resps attempt = .httpError 530 ra →
      mrGo resps (fuel + 1) attempt ws = .failed (attempt + 1) ws) ∧
    (resps 0 = .httpError 429 (some n) →
      (makeRequest resps).waits.head? = some (n * 1000) ∧
        2 ≤ (makeRequest resps).attempts) ∧
    (makeRequest resps).attempts ≤ cfMaxRetries := by
  refine ⟨?_, mrGo_530 resps ra, ?_, mrGo_attempts_le resps cfMaxRetries 0 []⟩
  · intro h0
    exact mrGo_530 resps ra 2 0 [] h0
  · intro h0
    have hstep : makeRequest resps = mrGo resps 2 1 [n * 1000] := by
      have h1 : makeRequest resps = mrGo resps (2 + 1) 0 [] := rfl
      rw [h1, mrGo_httpError_eq resps 2 0 [] 429 (some n) h0]
      norm_num [cfMaxRetries]
    constructor
    · obtain ⟨t, ht⟩ := mrGo_waits_mono resps 2 1 [n * 1000]
      rw [hstep, ht]
      rfl
    · rw [hstep]
      exact mrGo_attempts_ge resps 2 1 [n * 1000] (by omega)

/-- Witness for `retry_530_fatal_429_retry_after`: a first response of
429 with `Retry-After: 2` yields a 2000 ms wait before the second
attempt. -/
theorem retry_530_fatal_429_retry_after_witness :
    ((fun k => if k = 0 then HttpResp.httpError 429 (some 2) else HttpResp.ok true) 0 =
      HttpResp.httpError 429 (some 2)) ∧
    ((makeRequest fun k =>
        if k = 0 then HttpResp.httpError 429 (some 2) else HttpResp.ok true).waits.head? =
        some (2 * 1000) ∧
      2 ≤ (makeRequest fun k =>
        if k = 0 then HttpResp.httpError 429 (some 2) else HttpResp.ok true).attempts) :=
  ⟨rfl,
    (retry_530_fatal_429_retry_after
      (fun k => if k = 0 then HttpResp.httpError 429 (some 2) else HttpResp.ok true)
      none 2).2.2.1 rfl⟩

theorem getPublicIP_cached (ip : String) (lc now : Nat)
    (results : List (List ProviderResp)) :
    getPublicIP ⟨some ip, lc⟩ now results =
      if now - lc < ipCacheDuration then (.ok ip, ⟨some ip, lc⟩)
      else
        match tryProviders results with
        | some fresh => (.ok fresh, ⟨some fresh, now⟩)
        | none => (.ok ip, ⟨some ip, lc⟩) := rfl

theorem getPublicIP_nocache (lc now : Nat) (results : List (List ProviderResp)) :
    getPublicIP ⟨none, lc⟩ now results =
      match tryProviders results with
      | some fresh => (.ok fresh, ⟨some fresh, now⟩)
      | none => (.error ipFailureMsg, ⟨none, lc⟩) := rfl

theorem tryAttempts_all_fail : ∀ l : List ProviderResp,
    (∀ r ∈ l, r = .fail) → tryAttempts l = none := by
  intro l
  induction l with
  | nil => intro _; rfl
  | cons r rest ih =>
    intro hall
    have hr : r = .fail := hall r (List.mem_cons_self r rest)
    subst hr
    exact ih fun r hr => hall r (List.mem_cons_of_mem _ hr)

theorem tryProviders_all_fail : ∀ rss : List (List ProviderResp),
    (∀ p ∈ rss, ∀ r ∈ p, r = .fail) → tryProviders rss = none := by
  intro rss
  induction rss with
  | nil => intro _; rfl
  | cons p ps ih =>
    intro hall
    have hp : tryAttempts p = none :=
      tryAttempts_all_fail p fun r hr => hall p (List.mem_cons_self p ps) r hr
    unfold tryProviders
    rw [hp]
    exact ih fun q hq r hr => hall q (List.mem_cons_of_mem _ hq) r hr

/-- **C6.** When every provider/attempt combination fails, `getPublicIP`
returns the previously cached value — for any `now`, hence even past the
freshness window — and raises the all-services error only when no
resolution has ever succeeded (the cache is empty). -/
theorem stale_cache_fallback (cache : IPCache) (now : Nat)
    (results : List (List ProviderResp))
    (hall : ∀ p ∈ results, ∀ r ∈ p, r = .fail) :
    (∀ ip, cache.cachedIP = some ip → (getPublicIP cache now results).1 = .ok ip) ∧
    (cache.cachedIP = none → (getPublicIP cache now results).1 = .error ipFailureMsg) := by
  have htp : tryProviders results = none := tryProviders_all_fail results hall
  obtain ⟨cip, lc⟩ := cache
  constructor
  · intro ip hip
    simp only at hip
    subst hip
    rw [getPublicIP_cached]
    by_cases hfresh : now - lc < ipCacheDuration
    · rw [if_pos hfresh]
    · rw [if_neg hfresh, htp]
  · intro hnone
    simp only at hnone
    subst hnone
    rw [getPublicIP_nocache, htp]

/-- Witness for `stale_cache_fallback`: an expired cache entry is served
when the single provider fails on every attempt. -/
theorem stale_cache_fallback_witness :
    (∀ p ∈ [[ProviderResp.fail, ProviderResp.fail, ProviderResp.fail]],
      ∀ r ∈ p, r = ProviderResp.fail) ∧
    ((⟨some "1.2.3.4", 0⟩ : IPCache).cachedIP = some "1.2.3.4") ∧
    (getPublicIP ⟨some "1.2.3.4", 0⟩ 1000000000
      [[ProviderResp.fail, ProviderResp.fail, ProviderResp.fail]]).1 = .ok "1.2.3.4" :=
  ⟨by decide, rfl,
    (stale_cache_fallback ⟨some "1.2.3.4", 0⟩ 1000000000
      [[ProviderResp.fail, ProviderResp.fail, ProviderResp.fail]] (by decide)).1
      "1.2.3.4" rfl⟩

/-- **C7, counterexample.** The code's pattern `\d{1,3}` per group performs
no range check: the value `300.1.2.3` — not a dotted quad in the claim's
sense, its first octet exceeding 255 — is accepted as a successful
resolution rather than treated as a provider failure. -/
theorem ip_range_check_counterexample :
    specDottedQuad "300.1.2.3" = false ∧
    validIPv4 "300.1.2.3" = true ∧
    (getPublicIP ⟨none, 0⟩ 300000 [[ProviderResp.ok "300.1.2.3"]]).1 =
      .ok "300.1.2.3" := by
  refine ⟨by decide, by decide, ?_⟩
  rfl

theorem tryAttempts_eq_firstAccepted : ∀ l : List ProviderResp,
    tryAttempts l = (l.filterMap acceptResp).head? := by
  intro l
  induction l with
  | nil => rfl
  | cons r rest ih =>
    unfold tryAttempts
    cases h : acceptResp r with
    | some ip => simp [List.filterMap_cons, h]
    | none => simp [List.filterMap_cons, h, ih]

theorem tryProviders_eq_firstValidIP : ∀ rss : List (List ProviderResp),
    tryProviders rss = firstValidIP rss := by
  intro rss
  induction rss with
  | nil => rfl
  | cons p ps ih =>
    unfold tryProviders firstValidIP
    rw [tryAttempts_eq_firstAccepted p]
    cases hp : p.filterMap acceptResp with
    | nil =>
      simp only [List.head?_nil]
      rw [ih]
      unfold firstValidIP
      simp [List.filterMap_append, hp]
    | cons x xs =>
      simp [List.filterMap_append, hp]

/-- **C7, amended.** The resolver accepts an extracted value as a success
exactly when it is non-empty and matches the code's digit pattern (one to
three decimal digits per group, no 0–255 range check); under an empty or
expired cache it returns the first such syntactically valid value in
provider-major, attempt-minor order (`firstValidIP`), and raises only
when the cache is empty and no value is accepted. -/
theorem ip_first_valid_in_order (cache : IPCache) (now : Nat)
    (results : List (List ProviderResp)) :
    tryProviders results = firstValidIP results ∧
    (cache.cachedIP = none →
      (getPublicIP cache now results).1 =
        (match firstValidIP results with
          | some ip => Except.ok ip
          | none => Except.error ipFailureMsg)) ∧
    (∀ old, cache.cachedIP = some old → ipCacheDuration ≤ now - cache.lastCheck →
      ∀ ip, firstValidIP results = some ip →
        (getPublicIP cache now results).1 = .ok ip) := by
  refine ⟨tryProviders_eq_firstValidIP results, ?_, ?_⟩
  · intro hnone
    obtain ⟨cip, lc⟩ := cache
    simp only at hnone
    subst hnone
    rw [getPublicIP_nocache, tryProviders_eq_firstValidIP results]
    cases firstValidIP results <;> rfl
  · intro old hold hstale ip hip
    obtain ⟨cip, lc⟩ := cache
    simp only at hold hstale
    subst hold
    rw [getPublicIP_cached, if_neg (Nat.not_lt.mpr hstale),
      tryProviders_eq_firstValidIP results, hip]

/-- Witness for `ip_first_valid_in_order`: an expired cache, a failing
first provider, a valid second provider — the second provider's address
is returned. -/
theorem ip_first_valid_in_order_witness :
    ((⟨some "9.9.9.9", 0⟩ : IPCache).cachedIP = some "9.9.9.9") ∧
    (ipCacheDuration ≤ 300000 - (⟨some "9.9.9.9", 0⟩ : IPCache).lastCheck) ∧
    (firstValidIP [[ProviderResp.fail], [ProviderResp.ok "8.8.8.8"]] =
      some "8.8.8.8") ∧
    (getPublicIP ⟨some "9.9.9.9", 0⟩ 300000
      [[ProviderResp.fail], [ProviderResp.ok "8.8.8.8"]]).1 = .ok "8.8.8.8" :=
  ⟨rfl, by decide, by decide,
    (ip_first_valid_in_order ⟨some "9.9.9.9", 0⟩ 300000
      [[ProviderResp.fail], [ProviderResp.ok "8.8.8.8"]]).2.2
      "9.9.9.9" rfl (by decide) "8.8.8.8" (by decide)⟩

/-- **C8, counterexample.** Two snapshot entries with equal normalized
domain lists (`["a.com"]` after trimming) but different raw
representations are reported as changed by the diff: the comparison is on
the raw `JSON.stringify` serialization, not on the normalized lists. -/
theorem domain_normalization_counterexample :
    normalizeDomains (DomainNames.list ["a.com"]) =
      normalizeDomains (DomainNames.list [" a.com"]) ∧
    (diffChanges ⟨[⟨1, DomainNames.list ["a.com"], "10.0.0.5", 80, 100⟩], true, 0, true⟩
        [⟨1, DomainNames.list [" a.com"], "10.0.0.5", 80, 100⟩]).1.changedHosts =
      [⟨1, DomainNames.list [" a.com"], "10.0.0.5", 80, 100⟩] := by
  refine ⟨by decide, ?_⟩
  decide

/-- **C8, amended.** For a host whose id persists and whose other compared
fields are unchanged, the diff compares `domain_names` by equality of the
raw value (via its `JSON.stringify` serialization): the host is not
reported as changed exactly when the raw values coincide, and any raw
difference — even one that normalization would erase — reports it as
changed. -/
theorem domain_raw_comparison (cur prev : NPMHost) (f : Nat) (m : Bool)
    (hid : prev.id = cur.id)
    (hmo : cur.modified_on = prev.modified_on)
    (hfh : cur.forward_host = prev.forward_host)
    (hfp : cur.forward_port = prev.forward_port) :
    (cur.domain_names = prev.domain_names →
      (diffChanges ⟨[prev], true, f, m⟩ [cur]).1.changedHosts = []) ∧
    (cur.domain_names ≠ prev.domain_names →
      (diffChanges ⟨[prev], true, f, m⟩ [cur]).1.changedHosts = [cur]) := by
  have hfind : ([prev].find? fun h => h.id == cur.id) = some prev := by
    simp [List.find?, hid]
  have hcp : changedPred [prev] cur = hostChanged cur prev := by
    unfold changedPred
    rw [hfind]
  constructor
  · intro hdn
    have htuple : fieldsTuple cur = fieldsTuple prev := by
      simp [fieldsTuple, hmo, hfh, hfp, hdn]
    have hf : hostChanged cur prev = false := by
      rw [← Bool.not_eq_true]
      rw [hostChanged_iff]
      simp [htuple]
    rw [diffChanges_init]
    show [cur].filter (changedPred [prev]) = []
    simp [List.filter, hcp, hf]
  · intro hdn
    have htuple : fieldsTuple cur ≠ fieldsTuple prev := by
      simp [fieldsTuple, hmo, hfh, hfp]
      exact hdn
    have hf : hostChanged cur prev = true := (hostChanged_iff cur prev).mpr htuple
    rw [diffChanges_init]
    show [cur].filter (changedPred [prev]) = [cur]
    simp [List.filter, hcp, hf]

/-- Witness for `domain_raw_comparison`: a raw string snapshot against a
raw list snapshot with the same normalized content is reported changed. -/
theorem domain_raw_comparison_witness :
    ((⟨1, DomainNames.list ["a.com"], "10.0.0.5", 80, 100⟩ : NPMHost).id =
      (⟨1, DomainNames.str "a.com", "10.0.0.5", 80, 100⟩ : NPMHost).id) ∧
    ((⟨1, DomainNames.str "a.com", "10.0.0.5", 80, 100⟩ : NPMHost).domain_names ≠
      (⟨1, DomainNames.list ["a.com"], "10.0.0.5", 80, 100⟩ : NPMHost).domain_names) ∧
    (diffChanges ⟨[⟨1, DomainNames.list ["a.com"], "10.0.0.5", 80, 100⟩], true, 0, true⟩
        [⟨1, DomainNames.str "a.com", "10.0.0.5", 80, 100⟩]).1.changedHosts =
      [⟨1, DomainNames.str "a.com", "10.0.0.5", 80, 100⟩] :=
  ⟨rfl, by decide,
    (domain_raw_comparison
      ⟨1, DomainNames.str "a.com", "10.0.0.5", 80, 100⟩
      ⟨1, DomainNames.list ["a.com"], "10.0.0.5", 80, 100⟩ 0 true
      rfl rfl rfl rfl).2 (by decide)⟩

end NpmCfSync
